import Mathlib

/-!
Shallow embedding of the audio-synthesis core of `xilem_synth_widgets`:
the waveform generator, the per-frame synthesis loop and LFO drift of
`examples/dsp.rs`, the `AtomicF32` bit-cast cell, and the scope
trigger/decimation engine of `src/widgets/scope.rs`.

Real-valued DSP arithmetic (`f64` in the source) is embedded over `ℝ`;
the scope's `f32` sample comparisons and the LFO drift, which use only
field operations and order comparisons, are embedded over `ℚ` so that
they stay executable.
-/

namespace SynthSpec

/-- Waveform types for the oscillators (`enum Waveform` in `examples/dsp.rs`). -/
inductive Waveform where
  | Sine
  | Saw
  | Triangle
  | Pulse
  deriving DecidableEq, Repr

/-- `Waveform::sample`: generate a sample for the given phase (0.0..1.0).
`(phase * TAU).sin()` becomes `Real.sin (phase * (2 * π))`; the Triangle
branch `4.0 * (phase - (phase + 0.5).floor()).abs() - 1.0` uses the real
floor; Pulse compares `phase < 0.55`. -/
noncomputable def Waveform.sample : Waveform → ℝ → ℝ
  | Waveform.Sine, phase => Real.sin (phase * (2 * Real.pi))
  | Waveform.Saw, phase => 2 * phase - 1
  | Waveform.Triangle, phase => 4 * |phase - (⌊phase + 0.5⌋ : ℤ)| - 1
  | Waveform.Pulse, phase => if phase < 0.55 then 1 else -1

/-- One per-block snapshot of `SharedParams` as the audio callback reads it
(one relaxed atomic load per field at the top of the callback). -/
structure ParamSnapshot where
  freq1 : ℝ
  freq2 : ℝ
  volume_db : ℝ
  lfo_enabled : Bool
  mute : Bool
  waveform : Waveform
  lfo_range : ℝ
  lfo_speed : ℝ

/-- The mutable oscillator/LFO state captured by the stream closure in
`DspEngine::make_stream`. -/
structure EngineState where
  phase1 : ℝ
  phase2 : ℝ
  lfo_phase : ℝ
  lfo_rate : ℝ
  lfo_direction : ℝ

/-- `volume_linear = if muted { 0.0 } else { 10.0_f64.powf(volume_db / 20.0) }`. -/
noncomputable def volumeLinear (p : ParamSnapshot) : ℝ :=
  if p.mute then 0 else (10 : ℝ) ^ (p.volume_db / 20)

/-- One iteration of the per-frame loop in `DspEngine::make_stream`:
computes the clamped mono sample and the advanced oscillator/LFO state. -/
noncomputable def engineFrame (p : ParamSnapshot) (sample_rate : ℝ) (st : EngineState) :
    ℝ × EngineState :=
  let osc1 := p.waveform.sample st.phase1
  let osc2 := p.waveform.sample st.phase2
  let mixed := (osc1 + osc2) * 0.5
  let lfo_mod :=
    if p.lfo_enabled then 0.5 + 0.5 * Real.sin (st.lfo_phase * (2 * Real.pi)) else 1
  let sample := mixed * lfo_mod * volumeLinear p
  let clamped := min 1 (max (-1) sample)
  let phase1a := st.phase1 + p.freq1 / sample_rate
  let phase1b := if phase1a ≥ 1 then phase1a - 1 else phase1a
  let phase2a := st.phase2 + p.freq2 / sample_rate
  let phase2b := if phase2a ≥ 1 then phase2a - 1 else phase2a
  let lfoPhA := st.lfo_phase + st.lfo_rate / sample_rate
  let lfoPhB := if lfoPhA ≥ 1 then lfoPhA - 1 else lfoPhA
  let lfoRate := st.lfo_rate + st.lfo_direction * p.lfo_speed
  let lfoDir :=
    if lfoRate > p.lfo_range then -1
    else if lfoRate < 1 then 1
    else st.lfo_direction
  (clamped, ⟨phase1b, phase2b, lfoPhB, lfoRate, lfoDir⟩)

/-- The whole per-block frame loop: the list of clamped mono samples produced
for `frames` consecutive frames, together with the final state. -/
noncomputable def engineBlock (p : ParamSnapshot) (sample_rate : ℝ) :
    ℕ → EngineState → List ℝ × EngineState
  | 0, st => ([], st)
  | n + 1, st =>
    let fr := engineFrame p sample_rate st
    let rest := engineBlock p sample_rate n fr.2
    (fr.1 :: rest.1, rest.2)

/-- Channel fan-out: `for ch in 0..channels { data[frame*channels+ch] = clamped }`
writes the same mono sample to every channel of the frame.  This is the full
sequence of values written into `data` for a block. -/
noncomputable def blockOutput (p : ParamSnapshot) (sample_rate : ℝ) (frames channels : ℕ)
    (st : EngineState) : List ℝ :=
  ((engineBlock p sample_rate frames st).1.map (List.replicate channels)).flatten

/-- One step of the LFO-rate drift of `DspEngine::make_stream`
(state `(lfo_rate, lfo_direction)`; the update adds `lfo_direction * lfo_speed`
to the rate first and only then flips the direction on overflow/underflow).
Embedded over `ℚ`, since it only uses `+`, `*` and order comparisons. -/
def lfoDriftStep (lfo_max lfo_speed : ℚ) (st : ℚ × ℚ) : ℚ × ℚ :=
  let rate := st.1 + st.2 * lfo_speed
  let dir :=
    if rate > lfo_max then -1
    else if rate < 1 then 1
    else st.2
  (rate, dir)

/-- `n` repetitions of the per-frame LFO drift update. -/
def lfoDriftIter (lfo_max lfo_speed : ℚ) (st : ℚ × ℚ) (n : ℕ) : ℚ × ℚ :=
  (lfoDriftStep lfo_max lfo_speed)^[n] st

/-- A 32-bit float dissected into its IEEE-754 bit fields (sign, biased
exponent, mantissa).  This representation covers every bit pattern: NaNs with
any payload (`exponent = 255`, `mantissa ≠ 0`), infinities and signed zeros. -/
structure F32Bits where
  sign : ℕ
  exponent : ℕ
  mantissa : ℕ
  deriving DecidableEq, Repr

/-- Well-formedness of the dissected fields: 1 sign bit, 8 exponent bits,
23 mantissa bits. -/
def F32Bits.wellFormed (f : F32Bits) : Prop :=
  f.sign < 2 ∧ f.exponent < 2 ^ 8 ∧ f.mantissa < 2 ^ 23

instance (f : F32Bits) : Decidable f.wellFormed := by
  unfold F32Bits.wellFormed; infer_instance

/-- `f32::to_bits`: pack the fields into a `u32` bit pattern. -/
def f32ToBits (f : F32Bits) : ℕ :=
  f.sign * 2 ^ 31 + f.exponent * 2 ^ 23 + f.mantissa

/-- `f32::from_bits`: unpack a `u32` bit pattern into the fields. -/
def f32FromBits (b : ℕ) : F32Bits :=
  ⟨b / 2 ^ 31 % 2, b / 2 ^ 23 % 2 ^ 8, b % 2 ^ 23⟩

/-- The `AtomicF32` cell: an `AtomicU32` holding the bit pattern. -/
structure AtomicF32 where
  bits : ℕ

/-- `AtomicF32::new(v)`: store `v.to_bits()` (a `u32`, hence `% 2^32`). -/
def AtomicF32.new (v : F32Bits) : AtomicF32 :=
  ⟨f32ToBits v % 2 ^ 32⟩

/-- `AtomicF32::store(v)`: relaxed store of `v.to_bits()` into the cell. -/
def AtomicF32.store (_a : AtomicF32) (v : F32Bits) : AtomicF32 :=
  ⟨f32ToBits v % 2 ^ 32⟩

/-- `AtomicF32::load()`: relaxed load, reinterpreted via `f32::from_bits`. -/
def AtomicF32.load (a : AtomicF32) : F32Bits :=
  f32FromBits a.bits

/-- Zero-crossing detection mode (`enum TriggerMode` in `widgets/scope.rs`). -/
inductive TriggerMode where
  | RisingEdge
  | FallingEdge
  deriving DecidableEq, Repr

/-- The trigger/decimation state of the `Scope` widget (`struct Scope`),
restricted to the fields the ingest/trigger algorithm reads or writes
(the color fields and the poll source play no part in it). -/
structure Scope where
  display_points : List ℚ
  raw_buffer : List ℚ
  display_width : ℕ
  trigger_mode : TriggerMode
  trigger_threshold : ℚ
  generation : ℕ
  deriving Repr

/-- The rising-edge loop of `Scope::find_trigger_point` over a list of
indices: `if samples[i] < -threshold { armed = true }` and then
`if armed && samples[i] > threshold { return Some(i) }`. -/
def risingScan (samples : List ℚ) (threshold : ℚ) : Bool → List ℕ → Option ℕ
  | _, [] => none
  | armed, i :: rest =>
    let armed2 := armed || decide (samples.getD i 0 < -threshold)
    if armed2 && decide (samples.getD i 0 > threshold) then some i
    else risingScan samples threshold armed2 rest

/-- The falling-edge loop of `Scope::find_trigger_point`: armed above
`+threshold`, fires below `-threshold`. -/
def fallingScan (samples : List ℚ) (threshold : ℚ) : Bool → List ℕ → Option ℕ
  | _, [] => none
  | armed, i :: rest =>
    let armed2 := armed || decide (samples.getD i 0 > threshold)
    if armed2 && decide (samples.getD i 0 < -threshold) then some i
    else fallingScan samples threshold armed2 rest

/-- The hysteresis scan of `Scope::find_trigger_point` over the search
window `[display_width/2, len - display_width/2)`, in the mode selected by
`trigger_mode`; `none` when the loop falls through without returning. -/
def Scope.scanResult (sc : Scope) : Option ℕ :=
  let half := sc.display_width / 2
  let search_start := half
  let search_end := sc.raw_buffer.length - half
  match sc.trigger_mode with
  | TriggerMode.RisingEdge =>
    risingScan sc.raw_buffer sc.trigger_threshold false
      (List.range' search_start (search_end - search_start))
  | TriggerMode.FallingEdge =>
    fallingScan sc.raw_buffer sc.trigger_threshold false
      (List.range' search_start (search_end - search_start))

/-- `Scope::find_trigger_point`: the guard
`search_start >= search_end || search_end < 2` short-circuits to the
fallback `half.min(len.saturating_sub(1))`; otherwise the hysteresis scan
runs and its fall-through uses the same fallback. -/
def Scope.find_trigger_point (sc : Scope) : ℕ :=
  let half := sc.display_width / 2
  let search_start := half
  let search_end := sc.raw_buffer.length - half
  if search_start ≥ search_end ∨ search_end < 2 then
    min half (sc.raw_buffer.length - 1)
  else
    (sc.scanResult).getD (min half (sc.raw_buffer.length - 1))

/-- The raw-history update at the top of `Scope::ingest_buffer`: append the
incoming samples, then `drain` the oldest ones down to `display_width * 4`. -/
def Scope.ingestRaw (sc : Scope) (samples : List ℚ) : List ℚ :=
  let max_raw := sc.display_width * 4
  let rb := sc.raw_buffer ++ samples
  if rb.length > max_raw then rb.drop (rb.length - max_raw) else rb

/-- The scope state after the raw-history append/evict step. -/
def Scope.withIngested (sc : Scope) (samples : List ℚ) : Scope :=
  { sc with raw_buffer := sc.ingestRaw samples }

/-- `display_start = trigger_pos.saturating_sub(half)` on the post-append state. -/
def Scope.dispStart (sc : Scope) : ℕ :=
  sc.find_trigger_point - sc.display_width / 2

/-- `display_end = (trigger_pos + half).min(raw_buffer.len())` on the
post-append state. -/
def Scope.dispEnd (sc : Scope) : ℕ :=
  min (sc.find_trigger_point + sc.display_width / 2) sc.raw_buffer.length

/-- `span = display_end - display_start` on the post-append state. -/
def Scope.dispSpan (sc : Scope) : ℕ :=
  sc.dispEnd - sc.dispStart

/-- The display-buffer fill of `Scope::ingest_buffer` on the post-append
state: nearest-sample decimation when `span >= display_width`
(`src_idx = display_start + (i as f64 * (span as f64 / display_width as f64)) as usize`,
clamped to the last raw index), else the centered zero-padded copy. -/
def Scope.newDisplayPoints (sc : Scope) : List ℚ :=
  let ds := sc.dispStart
  let span := sc.dispSpan
  if span ≥ sc.display_width then
    (List.range sc.display_width).map fun (i : ℕ) =>
      let src_idx := ds + ⌊(i : ℚ) * ((span : ℚ) / (sc.display_width : ℚ))⌋₊
      sc.raw_buffer.getD (min src_idx (sc.raw_buffer.length - 1)) 0
  else
    let off := (sc.display_width - span) / 2
    (List.range sc.display_width).map fun i =>
      if off ≤ i ∧ i < off + span then sc.raw_buffer.getD (ds + i - off) 0 else 0

/-- `Scope::ingest_buffer`: `false` and no state change on an empty input;
otherwise append/evict the raw history, find the trigger, rebuild
`display_points`, bump `generation`, and return `true`. -/
def Scope.ingest_buffer (sc : Scope) (samples : List ℚ) : Scope × Bool :=
  if samples.isEmpty then (sc, false)
  else
    let sc1 := sc.withIngested samples
    ({ sc1 with
        display_points := sc1.newDisplayPoints
        generation := sc1.generation + 1 }, true)

/-! ### Theorems -/

/-- C10: an `ingest_buffer` call with an empty incoming sample buffer returns
`false` and leaves `raw_buffer`, `display_points` and `generation` unchanged. -/
theorem ingest_buffer_empty_noop (sc : Scope) :
    (sc.ingest_buffer []).2 = false ∧
    (sc.ingest_buffer []).1.raw_buffer = sc.raw_buffer ∧
    (sc.ingest_buffer []).1.display_points = sc.display_points ∧
    (sc.ingest_buffer []).1.generation = sc.generation := by
  simp [Scope.ingest_buffer]

/-- C9: after every `ingest_buffer` call with a non-empty sample buffer, the
raw history holds at most `4 * display_width` samples and is exactly the most
recent suffix of the concatenated history (FIFO eviction of the oldest). -/
theorem ingest_buffer_history_cap (sc : Scope) (samples : List ℚ) (h : samples ≠ []) :
    (sc.ingest_buffer samples).1.raw_buffer.length ≤ 4 * sc.display_width ∧
    (sc.ingest_buffer samples).1.raw_buffer =
      (sc.raw_buffer ++ samples).drop
        ((sc.raw_buffer ++ samples).length - 4 * sc.display_width) := by
  have hne : samples.isEmpty = false := by
    cases samples with
    | nil => exact absurd rfl h
    | cons a l => rfl
  simp only [Scope.ingest_buffer, hne, Bool.false_eq_true, if_false,
    Scope.withIngested, Scope.ingestRaw]
  have hcomm : sc.display_width * 4 = 4 * sc.display_width := Nat.mul_comm _ _
  by_cases hlen : (sc.raw_buffer ++ samples).length > sc.display_width * 4
  · rw [if_pos hlen]
    constructor
    · rw [List.length_drop]; omega
    · rw [hcomm]
  · rw [if_neg hlen]
    constructor
    · omega
    · rw [show (sc.raw_buffer ++ samples).length - 4 * sc.display_width = 0 by omega,
        List.drop_zero]

/-- Witness for C9 at a concrete scope (`display_width = 1`, so the cap is 4,
and the pre-history `[1, 2, 3]` plus the input `[4, 5]` overflows it). -/
theorem ingest_buffer_history_cap_witness :
    ([4, 5] ≠ ([] : List ℚ)) ∧
    ((Scope.mk [0] [1, 2, 3] 1 TriggerMode.RisingEdge (1/50) 0).ingest_buffer
        [4, 5]).1.raw_buffer.length ≤ 4 * 1 ∧
    ((Scope.mk [0] [1, 2, 3] 1 TriggerMode.RisingEdge (1/50) 0).ingest_buffer
        [4, 5]).1.raw_buffer =
      (([1, 2, 3] : List ℚ) ++ [4, 5]).drop ((([1, 2, 3] : List ℚ) ++ [4, 5]).length - 4 * 1) :=
  ⟨by decide,
   (ingest_buffer_history_cap (Scope.mk [0] [1, 2, 3] 1 TriggerMode.RisingEdge (1/50) 0)
      [4, 5] (by decide)).1,
   (ingest_buffer_history_cap (Scope.mk [0] [1, 2, 3] 1 TriggerMode.RisingEdge (1/50) 0)
      [4, 5] (by decide)).2⟩

/-- C8: `AtomicF32::store` followed by `AtomicF32::load` round-trips every
32-bit float value bit-for-bit — NaN payloads, infinities and signed zeros
included — with no rounding. -/
theorem atomicF32_roundtrip (a : AtomicF32) (v : F32Bits) (h : v.wellFormed) :
    (a.store v).load = v := by
  obtain ⟨s, e, m⟩ := v
  obtain ⟨hs, he, hm⟩ := h
  simp only [AtomicF32.store, AtomicF32.load, f32ToBits, f32FromBits,
    F32Bits.mk.injEq] at *
  refine ⟨?_, ?_, ?_⟩ <;> omega

/-- Witness for C8 at a NaN bit pattern with a nonzero payload
(sign 1, exponent 255, mantissa 12345). -/
theorem atomicF32_roundtrip_witness :
    (F32Bits.mk 1 255 12345).wellFormed ∧
    (AtomicF32.store ⟨0⟩ ⟨1, 255, 12345⟩).load = ⟨1, 255, 12345⟩ :=
  ⟨by decide, atomicF32_roundtrip ⟨0⟩ ⟨1, 255, 12345⟩ (by decide)⟩

/-- C1 counterexample: with `lfo_range = 2 ≥ 1`, `lfo_speed = 1 > 0`, starting
rate `2 ∈ [1, 2]` and direction `+1`, a single drift update drives the rate to
`3 ∉ [1, 2]` — the update adds the increment before flipping the direction, so
the rate overshoots the band. -/
theorem lfo_drift_claim_cex :
    (1 : ℚ) ≤ 2 ∧ (0 : ℚ) < 1 ∧ ((1 : ℚ) ≤ 2 ∧ (2 : ℚ) ≤ 2) ∧
    ((1 : ℚ) = 1 ∨ (1 : ℚ) = -1) ∧
    (lfoDriftIter 2 1 (2, 1) 1).1 = 3 ∧
    ¬(1 ≤ (lfoDriftIter 2 1 (2, 1) 1).1 ∧ (lfoDriftIter 2 1 (2, 1) 1).1 ≤ 2) := by
  have hstep : (lfoDriftIter 2 1 (2, 1) 1).1 = 3 := by
    simp only [lfoDriftIter, Function.iterate_one, lfoDriftStep]
    norm_num
  refine ⟨by norm_num, by norm_num, ⟨by norm_num, le_refl _⟩, Or.inl rfl, hstep, ?_⟩
  rw [hstep]
  norm_num

/-- The inductive invariant of the LFO drift: the direction is a sign, the
rate stays within the band widened by one increment on each side, and a rate
outside `[1, lfo_range]` forces the direction that moves it back. -/
def lfoInv (lfo_max lfo_speed : ℚ) (st : ℚ × ℚ) : Prop :=
  (st.2 = 1 ∨ st.2 = -1) ∧
  1 - lfo_speed ≤ st.1 ∧ st.1 ≤ lfo_max + lfo_speed ∧
  (lfo_max < st.1 → st.2 = -1) ∧ (st.1 < 1 → st.2 = 1)

/-- One drift step preserves the invariant. -/
theorem lfoInv_step (lfo_max lfo_speed : ℚ) (hmax : 1 ≤ lfo_max) (hspeed : 0 ≤ lfo_speed)
    (st : ℚ × ℚ) (h : lfoInv lfo_max lfo_speed st) :
    lfoInv lfo_max lfo_speed (lfoDriftStep lfo_max lfo_speed st) := by
  obtain ⟨r, d⟩ := st
  obtain ⟨hd, hlo, hhi, hgt, hlt⟩ := h
  simp only at hlo hhi hgt hlt
  rcases hd with hd | hd <;> subst hd
  · -- direction +1: the rate was at most lfo_max
    have hrmax : r ≤ lfo_max := by
      by_contra hc
      push_neg at hc
      exact absurd (hgt hc) (by norm_num)
    simp only [lfoDriftStep, lfoInv, one_mul]
    split_ifs with h1 h2 <;>
      refine ⟨by norm_num, by linarith, by linarith, ?_, ?_⟩ <;> intro hcond <;>
      first | rfl | linarith
  · -- direction -1: the rate was at least 1
    have hrmin : 1 ≤ r := by
      by_contra hc
      push_neg at hc
      exact absurd (hlt hc) (by norm_num)
    simp only [lfoDriftStep, lfoInv, neg_one_mul]
    split_ifs with h1 h2 <;>
      refine ⟨by norm_num, by linarith, by linarith, ?_, ?_⟩ <;> intro hcond <;>
      first | rfl | linarith

/-- The invariant holds after any number of drift steps. -/
theorem lfoInv_iter (lfo_max lfo_speed : ℚ) (hmax : 1 ≤ lfo_max) (hspeed : 0 ≤ lfo_speed)
    (st : ℚ × ℚ) (h : lfoInv lfo_max lfo_speed st) (n : ℕ) :
    lfoInv lfo_max lfo_speed (lfoDriftIter lfo_max lfo_speed st n) := by
  induction n with
  | zero => simpa [lfoDriftIter] using h
  | succ n ih =>
    rw [lfoDriftIter, Function.iterate_succ_apply']
    exact lfoInv_step lfo_max lfo_speed hmax hspeed _ ih

/-- C1 amended: for `lfo_range ≥ 1`, positive `lfo_speed`, starting rate in
`[1, lfo_range]` and direction in `{+1, -1}`, every iterate of the drift
update keeps the rate within `[1 - lfo_speed, lfo_range + lfo_speed]` (the
band widened by one increment on each side, since the flip happens after the
rate update). -/
theorem lfo_drift_bounded (lfo_max lfo_speed r d : ℚ)
    (hmax : 1 ≤ lfo_max) (hspeed : 0 < lfo_speed)
    (hr1 : 1 ≤ r) (hr2 : r ≤ lfo_max) (hd : d = 1 ∨ d = -1) (n : ℕ) :
    1 - lfo_speed ≤ (lfoDriftIter lfo_max lfo_speed (r, d) n).1 ∧
    (lfoDriftIter lfo_max lfo_speed (r, d) n).1 ≤ lfo_max + lfo_speed := by
  have hinv : lfoInv lfo_max lfo_speed (r, d) := by
    refine ⟨hd, by simp only []; linarith, by simp only []; linarith, ?_, ?_⟩ <;>
      intro hcond <;> simp only [] at hcond <;> linarith
  have := lfoInv_iter lfo_max lfo_speed hmax hspeed.le (r, d) hinv n
  exact ⟨this.2.1, this.2.2.1⟩

/-- Witness for the amended C1 at `lfo_range = 2`, `lfo_speed = 1/10`,
starting state `(1, +1)`, after 3 steps. -/
theorem lfo_drift_bounded_witness :
    ((1 : ℚ) ≤ 2 ∧ (0 : ℚ) < 1/10 ∧ (1 : ℚ) ≤ 1 ∧ (1 : ℚ) ≤ 2 ∧
      ((1 : ℚ) = 1 ∨ (1 : ℚ) = -1)) ∧
    1 - 1/10 ≤ (lfoDriftIter 2 (1/10) (1, 1) 3).1 ∧
    (lfoDriftIter 2 (1/10) (1, 1) 3).1 ≤ 2 + 1/10 :=
  ⟨⟨by norm_num, by norm_num, le_refl 1, by norm_num, Or.inl rfl⟩,
   (lfo_drift_bounded 2 (1/10) 1 1 (by norm_num) (by norm_num) (le_refl 1) (by norm_num)
      (Or.inl rfl) 3).1,
   (lfo_drift_bounded 2 (1/10) 1 1 (by norm_num) (by norm_num) (le_refl 1) (by norm_num)
      (Or.inl rfl) 3).2⟩

/-- C7: for every phase in `[0, 1)` and every shape in
`{Sine, Saw, Triangle, Pulse}`, `Waveform::sample` returns a value in `[-1, 1]`. -/
theorem waveform_sample_range (w : Waveform) (phase : ℝ)
    (h0 : 0 ≤ phase) (h1 : phase < 1) :
    -1 ≤ w.sample phase ∧ w.sample phase ≤ 1 := by
  cases w with
  | Sine =>
    exact ⟨Real.neg_one_le_sin _, Real.sin_le_one _⟩
  | Saw =>
    simp only [Waveform.sample]
    constructor <;> linarith
  | Triangle =>
    simp only [Waveform.sample]
    have hr : ⌊phase + (0.5 : ℝ)⌋ = round phase := by
      rw [round_eq]
      norm_num
    rw [hr]
    have h2 := abs_sub_round phase
    have h3 := abs_nonneg (phase - (round phase : ℝ))
    constructor <;> linarith
  | Pulse =>
    simp only [Waveform.sample]
    split_ifs <;> norm_num

/-- Witness for C7 at the Pulse shape and phase 0. -/
theorem waveform_sample_range_witness :
    (0 : ℝ) ≤ 0 ∧ (0 : ℝ) < 1 ∧
    -1 ≤ Waveform.sample Waveform.Pulse 0 ∧ Waveform.sample Waveform.Pulse 0 ≤ 1 :=
  ⟨le_refl 0, by norm_num,
   (waveform_sample_range Waveform.Pulse 0 (le_refl 0) (by norm_num)).1,
   (waveform_sample_range Waveform.Pulse 0 (le_refl 0) (by norm_num)).2⟩

/-- With `mute = true` the clamped mono sample of a single frame is `0`:
`volume_linear` is `0`, so `mixed * lfo_mod * volume_linear = 0` and
`clamp(0, -1, 1) = 0`. -/
theorem engineFrame_mute (p : ParamSnapshot) (sample_rate : ℝ) (st : EngineState)
    (h : p.mute = true) : (engineFrame p sample_rate st).1 = 0 := by
  simp only [engineFrame, volumeLinear, h, if_true, mul_zero]
  rw [show max (-1 : ℝ) 0 = 0 from max_eq_right (by norm_num),
    show min (1 : ℝ) 0 = 0 from min_eq_right (by norm_num)]

/-- With `mute = true` the whole block of mono samples is all zeros. -/
theorem engineBlock_mute (p : ParamSnapshot) (sample_rate : ℝ) (h : p.mute = true) :
    ∀ (frames : ℕ) (st : EngineState),
      (engineBlock p sample_rate frames st).1 = List.replicate frames 0 := by
  intro frames
  induction frames with
  | zero => intro st; rfl
  | succ n ih =>
    intro st
    show (engineFrame p sample_rate st).1 ::
        (engineBlock p sample_rate n (engineFrame p sample_rate st).2).1 =
      List.replicate (n + 1) 0
    rw [engineFrame_mute p sample_rate st h, ih, List.replicate_succ]

/-- Flattening `n` copies of a length-`c` zero run gives `n * c` zeros. -/
theorem flatten_replicate_zero (n c : ℕ) :
    (List.replicate n (List.replicate c (0 : ℝ))).flatten = List.replicate (n * c) 0 := by
  induction n with
  | zero => simp
  | succ m ih =>
    rw [List.replicate_succ, List.flatten_cons, ih, ← List.replicate_add]
    congr 1
    ring

/-- C3: with `mute = true` in the parameter snapshot, every sample the
per-block callback writes into the output slice — every frame and every
channel — is exactly `0`, whatever the oscillator phases, frequencies,
volume, waveform selection and LFO state. -/
theorem engine_mute_silent (p : ParamSnapshot) (sample_rate : ℝ)
    (frames channels : ℕ) (st : EngineState) (h : p.mute = true) :
    blockOutput p sample_rate frames channels st = List.replicate (frames * channels) 0 := by
  simp only [blockOutput]
  rw [engineBlock_mute p sample_rate h frames st, List.map_replicate,
    flatten_replicate_zero]

/-- Witness for C3: a muted snapshot at full volume and active oscillators,
a 2-frame 2-channel block. -/
theorem engine_mute_silent_witness :
    (ParamSnapshot.mk 440 660 (-6) true true Waveform.Saw 8 (1/10000)).mute = true ∧
    blockOutput (ParamSnapshot.mk 440 660 (-6) true true Waveform.Saw 8 (1/10000)) 44100 2 2
      ⟨0, 0, 0, 2, 1⟩ = List.replicate (2 * 2) 0 :=
  ⟨rfl,
   engine_mute_silent (ParamSnapshot.mk 440 660 (-6) true true Waveform.Saw 8 (1/10000))
     44100 2 2 ⟨0, 0, 0, 2, 1⟩ rfl⟩

/-- A concrete scope whose raw buffer (ten zeros) has no gated crossing:
`display_width = 4`, threshold `1/50`, rising-edge mode. -/
def fallbackCexScope : Scope :=
  ⟨List.replicate 4 0, List.replicate 10 0, 4, TriggerMode.RisingEdge, mkRat 1 50, 0⟩

/-- C2 counterexample: on a ten-zero raw buffer the scan finds nothing, yet
`find_trigger_point` returns `2` (`display_width / 2`), not the midpoint `5`
of the available data. -/
theorem trigger_fallback_claim_cex :
    fallbackCexScope.scanResult = none ∧
    fallbackCexScope.find_trigger_point = 2 ∧
    fallbackCexScope.raw_buffer.length / 2 = 5 ∧
    fallbackCexScope.find_trigger_point ≠ fallbackCexScope.raw_buffer.length / 2 := by
  decide

/-- C2 amended: when the hysteresis scan of the search window finds no gated
crossing, `find_trigger_point` falls back to `display_width / 2` clamped to
the last valid index (`min (display_width / 2) (len - 1)`) — the anchor that
centers the oldest `display_width` samples, not the midpoint of the data. -/
theorem trigger_no_crossing_fallback (sc : Scope) (h : sc.scanResult = none) :
    sc.find_trigger_point = min (sc.display_width / 2) (sc.raw_buffer.length - 1) := by
  simp only [Scope.find_trigger_point]
  split_ifs with hc
  · rfl
  · rw [h]
    rfl

/-- Witness for the amended C2 on the concrete no-crossing scope. -/
theorem trigger_no_crossing_fallback_witness :
    fallbackCexScope.scanResult = none ∧
    fallbackCexScope.find_trigger_point =
      min (fallbackCexScope.display_width / 2) (fallbackCexScope.raw_buffer.length - 1) :=
  ⟨by decide, trigger_no_crossing_fallback fallbackCexScope (by decide)⟩

/-- The rising-edge firing condition at index `i` for a scan whose window
starts at `ss`: the sample exceeds `+threshold`, and some sample at or before
it (inside the window) dropped below `-threshold` — i.e. the loop is armed
when it inspects index `i`. -/
def firesAt (s : List ℚ) (thr : ℚ) (ss i : ℕ) : Prop :=
  thr < s.getD i 0 ∧ ∃ j, ss ≤ j ∧ j ≤ i ∧ s.getD j 0 < -thr

/-- The rising-edge loop over the consecutive indices `a, a+1, ..., a+n-1`
returns `some k` when `k` is the first index of the range that fires, given
that the incoming `armed` flag summarises exactly the arming samples of the
already-scanned prefix `[ss, a)`. -/
theorem risingScan_finds_first (s : List ℚ) (thr : ℚ) (ss : ℕ) :
    ∀ (n a : ℕ) (b : Bool), ss ≤ a →
      (b = true ↔ ∃ j, ss ≤ j ∧ j < a ∧ s.getD j 0 < -thr) →
      ∀ k, a ≤ k → k < a + n → firesAt s thr ss k →
        (∀ i, a ≤ i → i < k → ¬ firesAt s thr ss i) →
        risingScan s thr b (List.range' a n) = some k := by
  intro n
  induction n with
  | zero =>
    intro a b _ _ k hak hkn _ _
    omega
  | succ n ih =>
    intro a b hssa hbinv k hak hkn hfk hmin
    rw [List.range'_succ]
    simp only [risingScan]
    have harm : (b || decide (s.getD a 0 < -thr)) = true ↔
        ∃ j, ss ≤ j ∧ j < a + 1 ∧ s.getD j 0 < -thr := by
      rw [Bool.or_eq_true, decide_eq_true_eq, hbinv]
      constructor
      · rintro (⟨j, h1, h2, h3⟩ | hc)
        · exact ⟨j, h1, by omega, h3⟩
        · exact ⟨a, hssa, by omega, hc⟩
      · rintro ⟨j, h1, h2, h3⟩
        rcases Nat.lt_succ_iff_lt_or_eq.mp h2 with hja | rfl
        · exact Or.inl ⟨j, h1, hja, h3⟩
        · exact Or.inr h3
    rcases Nat.eq_or_lt_of_le hak with rfl | hlt
    · have hcond : ((b || decide (s.getD a 0 < -thr)) && decide (thr < s.getD a 0)) = true := by
        rw [Bool.and_eq_true, decide_eq_true_eq]
        refine ⟨harm.mpr ?_, hfk.1⟩
        obtain ⟨j, h1, h2, h3⟩ := hfk.2
        exact ⟨j, h1, by omega, h3⟩
      rw [if_pos hcond]
    · have hcond :
          ¬(((b || decide (s.getD a 0 < -thr)) && decide (thr < s.getD a 0)) = true) := by
        intro hc
        rw [Bool.and_eq_true, decide_eq_true_eq] at hc
        obtain ⟨ha2, hgt⟩ := hc
        obtain ⟨j, h1, h2, h3⟩ := harm.mp ha2
        exact hmin a le_rfl hlt ⟨hgt, j, h1, by omega, h3⟩
      rw [if_neg hcond]
      exact ih (a + 1) (b || decide (s.getD a 0 < -thr)) (by omega) harm k (by omega)
        (by omega) hfk (fun i h1 h2 => hmin i (by omega) h2)

/-- C4: in rising-edge mode, if inside the search window some sample drops
below `-threshold` and `k` is the first window index at or after such an
arming sample whose value exceeds `+threshold`, then `find_trigger_point`
returns exactly `k`. -/
theorem rising_trigger_returns_first (sc : Scope) (k : ℕ)
    (hmode : sc.trigger_mode = TriggerMode.RisingEdge)
    (hlo : sc.display_width / 2 ≤ k)
    (hhi : k < sc.raw_buffer.length - sc.display_width / 2)
    (hfire : firesAt sc.raw_buffer sc.trigger_threshold (sc.display_width / 2) k)
    (hmin : ∀ i, sc.display_width / 2 ≤ i → i < k →
      ¬ firesAt sc.raw_buffer sc.trigger_threshold (sc.display_width / 2) i) :
    sc.find_trigger_point = k := by
  simp only [Scope.find_trigger_point]
  split_ifs with hc
  · -- the guard can only fire here with a degenerate window: it forces
    -- `display_width / 2 = 0` and `k = 0`, where the fallback also returns 0
    omega
  · have hscan : sc.scanResult = some k := by
      simp only [Scope.scanResult, hmode]
      refine risingScan_finds_first sc.raw_buffer sc.trigger_threshold (sc.display_width / 2)
        (sc.raw_buffer.length - sc.display_width / 2 - sc.display_width / 2)
        (sc.display_width / 2) false le_rfl ?_ k hlo (by omega) hfire hmin
      constructor
      · intro h
        exact absurd h (by simp)
      · rintro ⟨j, h1, h2, _⟩
        omega
    rw [hscan]
    rfl

/-- A concrete rising-edge scope: width 4, window `[2, 8)`, arming sample
`-1` at index 3 and firing sample `1` at index 4. -/
def risingWitnessScope : Scope :=
  ⟨List.replicate 4 0, [0, 0, 0, -1, 1, 0, 0, 0, 0, 0], 4, TriggerMode.RisingEdge, mkRat 1 50, 0⟩

/-- Witness for C4: on the concrete scope the trigger is exactly index 4. -/
theorem rising_trigger_returns_first_witness :
    risingWitnessScope.trigger_mode = TriggerMode.RisingEdge ∧
    risingWitnessScope.display_width / 2 ≤ 4 ∧
    4 < risingWitnessScope.raw_buffer.length - risingWitnessScope.display_width / 2 ∧
    risingWitnessScope.find_trigger_point = 4 :=
  ⟨rfl, by decide, by decide,
   rising_trigger_returns_first risingWitnessScope 4 rfl (by decide) (by decide)
     ⟨by decide, 3, by decide, by decide, by decide⟩
     (by
       have hdw : risingWitnessScope.display_width = 4 := rfl
       intro i h2 h4
       have hi : i = 2 ∨ i = 3 := by omega
       rcases hi with rfl | rfl
       · intro hf
         exact absurd hf.1 (by decide)
       · intro hf
         exact absurd hf.1 (by decide))⟩

/-- On a non-empty input, `ingest_buffer`'s resulting display buffer is the
rebuild computed on the post-append state. -/
theorem ingest_buffer_display_points (sc : Scope) (samples : List ℚ) (h : samples ≠ []) :
    (sc.ingest_buffer samples).1.display_points = (sc.withIngested samples).newDisplayPoints := by
  have hne : samples.isEmpty = false := by
    cases samples with
    | nil => exact absurd rfl h
    | cons a l => rfl
  simp only [Scope.ingest_buffer]
  rw [if_neg (by simp [hne])]

/-- Indexing a `range`-map with `getD` inside bounds evaluates the function. -/
theorem getD_map_range {α : Type} (w i : ℕ) (f : ℕ → α) (d : α) (hi : i < w) :
    ((List.range w).map f).getD i d = f i := by
  rw [List.getD_eq_getElem _ _ (by simpa using hi)]
  simp

/-- C5: when the clipped display span has length exactly `display_width`,
`ingest_buffer` copies the span one-for-one: output slot `i` equals the raw
sample at `display_start + i` — the decimation step degenerates to the
identity, with no interpolation or averaging. -/
theorem decimation_identity (sc : Scope) (samples : List ℚ) (hne : samples ≠ [])
    (hspan : (sc.withIngested samples).dispSpan = sc.display_width) :
    ∀ i < sc.display_width,
      (sc.ingest_buffer samples).1.display_points.getD i 0 =
        (sc.withIngested samples).raw_buffer.getD
          ((sc.withIngested samples).dispStart + i) 0 := by
  intro i hi
  have hw : 0 < sc.display_width := by omega
  have hwidth : (sc.withIngested samples).display_width = sc.display_width := rfl
  rw [ingest_buffer_display_points sc samples hne]
  simp only [Scope.newDisplayPoints, hwidth, hspan, ge_iff_le, le_refl, if_true]
  rw [getD_map_range _ _ _ _ hi]
  have hq : ((sc.display_width : ℚ) / (sc.display_width : ℚ)) = 1 :=
    div_self (Nat.cast_ne_zero.mpr (by omega))
  rw [hq, mul_one, Nat.floor_natCast]
  have hde : (sc.withIngested samples).dispEnd ≤ (sc.withIngested samples).raw_buffer.length :=
    min_le_right _ _
  have hsp : (sc.withIngested samples).dispEnd - (sc.withIngested samples).dispStart =
      sc.display_width := hspan
  rw [show min ((sc.withIngested samples).dispStart + i)
      ((sc.withIngested samples).raw_buffer.length - 1) =
      (sc.withIngested samples).dispStart + i by omega]

/-- A fresh scope (`display_width = 4`, empty history) for the decimation
and insufficient-history witnesses. -/
def freshScope : Scope :=
  ⟨List.replicate 4 0, [], 4, TriggerMode.RisingEdge, mkRat 1 50, 0⟩

/-- Witness for C5: ingesting eight samples with a clean crossing gives a
span of exactly `display_width`; slot 2 equals the raw sample at
`display_start + 2`. -/
theorem decimation_identity_witness :
    ([0, 0, -1, 1, 0, 0, 0, 0] ≠ ([] : List ℚ)) ∧
    (freshScope.withIngested [0, 0, -1, 1, 0, 0, 0, 0]).dispSpan = freshScope.display_width ∧
    (freshScope.ingest_buffer [0, 0, -1, 1, 0, 0, 0, 0]).1.display_points.getD 2 0 =
      (freshScope.withIngested [0, 0, -1, 1, 0, 0, 0, 0]).raw_buffer.getD
        ((freshScope.withIngested [0, 0, -1, 1, 0, 0, 0, 0]).dispStart + 2) 0 :=
  ⟨by decide, by decide,
   decimation_identity freshScope [0, 0, -1, 1, 0, 0, 0, 0] (by decide) (by decide) 2
     (by decide)⟩

/-- C6: when the clipped span is shorter than `display_width`, the output is
the span centered at offset `(display_width - span) / 2`, one sample per
slot, with every slot outside that window equal to `0`. -/
theorem insufficient_history_fill (sc : Scope) (samples : List ℚ) (hne : samples ≠ [])
    (hspan : (sc.withIngested samples).dispSpan < sc.display_width) :
    (∀ j < (sc.withIngested samples).dispSpan,
      (sc.ingest_buffer samples).1.display_points.getD
          ((sc.display_width - (sc.withIngested samples).dispSpan) / 2 + j) 0 =
        (sc.withIngested samples).raw_buffer.getD
          ((sc.withIngested samples).dispStart + j) 0) ∧
    (∀ i < sc.display_width,
      (i < (sc.display_width - (sc.withIngested samples).dispSpan) / 2 ∨
        (sc.display_width - (sc.withIngested samples).dispSpan) / 2 +
          (sc.withIngested samples).dispSpan ≤ i) →
      (sc.ingest_buffer samples).1.display_points.getD i 0 = 0) := by
  have hdp := ingest_buffer_display_points sc samples hne
  have hwidth : (sc.withIngested samples).display_width = sc.display_width := rfl
  have hcond : ¬(sc.display_width ≤ (sc.withIngested samples).dispSpan) := by omega
  constructor
  · intro j hj
    rw [hdp]
    simp only [Scope.newDisplayPoints, hwidth, ge_iff_le, if_neg hcond]
    rw [getD_map_range _ _ _ _ (by omega)]
    rw [if_pos ⟨Nat.le_add_right _ _, by omega⟩]
    congr 1
    omega
  · intro i hi hside
    rw [hdp]
    simp only [Scope.newDisplayPoints, hwidth, ge_iff_le, if_neg hcond]
    rw [getD_map_range _ _ _ _ hi]
    rw [if_neg (by omega)]

/-- Witness for C6: a single ingested sample on an empty history gives span 1
and offset `(4 - 1) / 2 = 1`; slot 1 carries the sample, slot 3 is zero. -/
theorem insufficient_history_fill_witness :
    ([1] ≠ ([] : List ℚ)) ∧
    (freshScope.withIngested [1]).dispSpan < freshScope.display_width ∧
    (freshScope.ingest_buffer [1]).1.display_points.getD
        ((freshScope.display_width - (freshScope.withIngested [1]).dispSpan) / 2 + 0) 0 =
      (freshScope.withIngested [1]).raw_buffer.getD
        ((freshScope.withIngested [1]).dispStart + 0) 0 ∧
    (freshScope.ingest_buffer [1]).1.display_points.getD 3 0 = 0 :=
  ⟨by decide, by decide,
   (insufficient_history_fill freshScope [1] (by decide) (by decide)).1 0 (by decide),
   (insufficient_history_fill freshScope [1] (by decide) (by decide)).2 3 (by decide)
     (by decide)⟩

end SynthSpec
